import Mathlib

/-!
Verification of the log-parsing module (`0x03-log_parsing/0-stats.py` and
`0x03-log_parsing/1-stats.py`) against its natural-language specification.

The Python code is shallowly embedded: the regular-expression grammar is
translated into an equivalent deterministic parser over `List Char`
(the pattern's backtracking is resolvable greedily because every
variable-length digit run is followed by a non-digit literal, and the
status-code alternation consists of distinct three-character literals),
the mutable `ConcreteLogParser` object becomes explicit state passing on
a `ParserState` record, and the one `defaultdict` object owned by the
parser is modelled as an association list stored in the state, with the
summary dictionary's reference to it made explicit.
-/

namespace LogStats

/-- Model of the regex class `\d` on the inputs the grammar concerns:
ASCII decimal digits. -/
def isDig (c : Char) : Bool := '0' ≤ c && c ≤ '9'

/-- Model of `str.strip()`'s whitespace test on the relevant inputs. -/
def isPySpace (c : Char) : Bool := c.isWhitespace

/-- Model of `log.strip()`: remove leading and trailing whitespace. -/
def pyStrip (s : String) : String :=
  String.mk (((s.data.dropWhile isPySpace).reverse.dropWhile isPySpace).reverse)

/-- Value of a digit string (most significant first), used to model
`int(...)` on all-digit strings. -/
def digitsVal : List Char → Nat → Nat
  | [], acc => acc
  | c :: cs, acc => digitsVal cs (acc * 10 + (c.toNat - ('0').toNat))

/-- Model of Python `int(s)` restricted to the strings the regex group
`file_size` can produce (digit-only strings): the empty string raises
`ValueError` (modelled as `none`); a nonempty all-digit string parses to
its value. -/
def intOfDigits? (s : String) : Option Nat :=
  if s.data ≠ [] ∧ s.data.all isDig then some (digitsVal s.data 0) else none

/-- Consume an exact literal from the front of the input, returning the
rest; models a literal fragment of the regex. -/
def expectLit : List Char → List Char → Option (List Char)
  | [], cs => some cs
  | _ :: _, [] => none
  | l :: ls, c :: cs => if c = l then expectLit ls cs else none

/-- Model of a fixed-count digit fragment `\d` repeated exactly `n`
times: consume `n` characters, all digits, returning them and the rest. -/
def fixedDigits : Nat → List Char → Option (List Char × List Char)
  | 0, cs => some ([], cs)
  | _ + 1, [] => none
  | n + 1, c :: cs =>
    if isDig c then
      match fixedDigits n cs with
      | some (ds, r) => some (c :: ds, r)
      | none => none
    else none

/-- Model of a fragment `\d` repeated one to three times followed by a
non-digit literal (as in the IP-address group): with backtracking such a
fragment matches exactly when the maximal digit run here has length one
to three, and it consumes that run. -/
def seg13 (cs : List Char) : Option (List Char × List Char) :=
  let run := cs.takeWhile isDig
  if run.length = 0 ∨ 4 ≤ run.length then none
  else some (run, cs.dropWhile isDig)

/-- The IP-address group: four one-to-three-digit segments separated by
dots. -/
def parseIp (cs : List Char) : Option (List Char × List Char) := do
  let (a, r1) ← seg13 cs
  let r2 ← expectLit [('.')] r1
  let (b, r3) ← seg13 r2
  let r4 ← expectLit [('.')] r3
  let (c, r5) ← seg13 r4
  let r6 ← expectLit [('.')] r5
  let (d, r7) ← seg13 r6
  some (a ++ ('.') :: b ++ ('.') :: c ++ ('.') :: d, r7)

/-- The optional fractional-seconds fragment, a dot followed by zero to
twelve digits, itself followed by the literal `]`: if the next character
is a dot the fragment must match (skipping it would fail on the bracket),
otherwise it is skipped. -/
def parseFrac (cs : List Char) : Option (List Char × List Char) :=
  match cs with
  | [] => some ([], [])
  | c :: cs' =>
    if c = ('.') then
      let run := cs'.takeWhile isDig
      if 13 ≤ run.length then none
      else some (('.') :: run, cs'.dropWhile isDig)
    else some ([], c :: cs')

/-- The timestamp group: date, time, optional fractional seconds. -/
def parseDate (cs : List Char) : Option (List Char × List Char) := do
  let (y, r1) ← fixedDigits 4 cs
  let r2 ← expectLit [('-')] r1
  let (mo, r3) ← fixedDigits 2 r2
  let r4 ← expectLit [('-')] r3
  let (d, r5) ← fixedDigits 2 r4
  let r6 ← expectLit [(' ')] r5
  let (h, r7) ← fixedDigits 2 r6
  let r8 ← expectLit [(':')] r7
  let (mi, r9) ← fixedDigits 2 r8
  let r10 ← expectLit [(':')] r9
  let (s, r11) ← fixedDigits 2 r10
  let (f, r12) ← parseFrac r11
  some (y ++ ('-') :: mo ++ ('-') :: d ++ (' ') :: h ++ (':') :: mi
          ++ (':') :: s ++ f, r12)

/-- The literal request fragment of the pattern, quote characters and the
trailing space included. -/
def requestLit : List Char := ("\"GET /projects/260 HTTP/1.1\" ").data

/-- The fixed enumerated set of status codes in the `1-stats.py`
pattern's alternation. -/
def statusCodes : List String :=
  [("200"), ("301"), ("400"), ("401"), ("403"), ("404"), ("405"), ("500")]

/-- The `1-stats.py` status-code group: an alternation of the eight
distinct three-character literals; it matches exactly when the next three
characters form one of them. -/
def parseStatus1 (cs : List Char) : Option (String × List Char) :=
  match cs with
  | a :: b :: c :: rest =>
    let code := String.mk [a, b, c]
    if code ∈ statusCodes then some (code, rest) else none
  | _ => none

/-- The `0-stats.py` status-code group `\d` three times: any three
digits. -/
def parseStatus0 (cs : List Char) : Option (String × List Char) :=
  match cs with
  | a :: b :: c :: rest =>
    if isDig a && isDig b && isDig c then some (String.mk [a, b, c], rest)
    else none
  | _ => none

/-- The `1-stats.py` byte-size group, zero to twelve digits, under
`re.fullmatch`: the entire remaining input must be that digit run. -/
def parseTail1 (cs : List Char) : Option String :=
  if cs.all isDig ∧ cs.length ≤ 12 then some (String.mk cs) else none

/-- The `0-stats.py` byte-size group, one or more digits, under
`re.match`: a prefix match, so the maximal digit run is captured and any
remaining input is ignored. -/
def parseTail0 (cs : List Char) : Option String :=
  let run := cs.takeWhile isDig
  if run.length = 0 then none else some (String.mk run)

/-- The dictionary returned by `parse_log` on a match. -/
structure LogInfo where
  ip_address : String
  date : String
  status_code : String
  file_size : String
deriving DecidableEq, Repr

/-- The full mutable state of a `ConcreteLogParser` object: the byte
total, the `defaultdict` of status-code counts (an association list in
insertion order, holding exactly the keys that have been incremented),
and the line counter. -/
structure ParserState where
  files_size : Nat
  status_code_count : List (String × Nat)
  line_count : Nat
deriving DecidableEq, Repr

/-- The state set up by `ConcreteLogParser.__init__`. -/
def initState : ParserState := ⟨0, [], 0⟩

/-- Model of `self._status_code_count[status_code] += 1` on the
`defaultdict(int)`: increment an existing entry in place, or append a
new entry with count one. -/
def bump (m : List (String × Nat)) (k : String) : List (String × Nat) :=
  match m with
  | [] => [(k, 1)]
  | (k', v) :: rest => if k' = k then (k', v + 1) :: rest else (k', v) :: bump rest k

/-- Reading the count dictionary with `defaultdict` semantics: absent
keys read as zero. -/
def countOf (m : List (String × Nat)) (k : String) : Nat :=
  match m with
  | [] => 0
  | (k', v) :: rest => if k' = k then v else countOf rest k

/-- Model of `ConcreteLogParser.log`: add the byte size to the running total and
increment the status-code count. -/
def log (st : ParserState) (file_size : Nat) (status_code : String) : ParserState :=
  { st with
      files_size := st.files_size + file_size,
      status_code_count := bump st.status_code_count status_code }

/-- Folding a sequence of matched records into the accumulator through
`log`; each record is a pair of byte size and status code. -/
def foldRecs (st : ParserState) (recs : List (Nat × String)) : ParserState :=
  recs.foldl (fun s r => log s r.1 r.2) st

/-- The dictionary returned by `get_summary`. Its `files_size` entry is
an integer copied by value; its `status_code_count` entry is the very
`defaultdict` object owned by the parser, returned by reference and not
copied — the program only ever allocates that one dictionary, so the
reference is modelled as a unit marker resolved against the parser state
current at the moment the reference is read. -/
structure Summary where
  files_size : Nat
  status_code_count : Unit
deriving DecidableEq, Repr

/-- Model of `ConcreteLogParser.get_summary`: build the summary dictionary from
the current total (by value) and the counts dictionary (by reference). -/
def get_summary (st : ParserState) : Summary :=
  { files_size := st.files_size, status_code_count := () }

/-- Reading a summary's `status_code_count` entry at a moment when the
parser state is `st`: the entry aliases the parser's one dictionary, so
the read yields that dictionary's current contents. -/
def derefCounts (st : ParserState) (s : Summary) : List (String × Nat) :=
  st.status_code_count

/-- Lexicographic comparison of character lists by code point, the order
Python's `sorted` uses on the string keys of the summary dictionary. -/
def charListLe : List Char → List Char → Bool
  | [], _ => true
  | _ :: _, [] => false
  | a :: as, b :: bs => if a = b then charListLe as bs else decide (a < b)

/-- Key order on dictionary items; the keys of a dictionary are distinct
so `sorted` on the (key, value) pairs is determined by the keys. -/
def keyLe (p q : String × Nat) : Bool := charListLe p.1.data q.1.data

/-- Insertion step of sorting the dictionary items. -/
def insertSorted (p : String × Nat) : List (String × Nat) → List (String × Nat)
  | [] => [p]
  | q :: qs => if keyLe p q then p :: q :: qs else q :: insertSorted p qs

/-- Model of `sorted(data['status_code_count'].items())`. -/
def sortItems : List (String × Nat) → List (String × Nat)
  | [] => []
  | p :: ps => insertSorted p (sortItems ps)

/-- One rendered status line of `ConsoleObserver.update`. -/
def statusLine (p : String × Nat) : String := p.1 ++ (": ") ++ toString p.2

/-- Model of `ConsoleObserver.update`: the lines printed for a summary, read at a
moment when the parser state is `st` (the counts entry is dereferenced
at print time). -/
def update (st : ParserState) (s : Summary) : List String :=
  (("File Size: ") ++ toString s.files_size)
    :: (sortItems (derefCounts st s)).map statusLine

/-- The lines a call to `notify` causes the attached `ConsoleObserver`
to print when the parser state is `st`. -/
def notifyLines (st : ParserState) : List String := update st (get_summary st)

/-- The numeric value of a status-code string, used to state the
ascending-numeric-order property of the report. -/
def codeVal (c : String) : Nat := digitsVal c.data 0

/-- Events observable from `SignalHandler._handle_signal`. -/
inductive SigEvent where
  | callbackInvoked
  | diagnosticPrinted
deriving DecidableEq, Repr

/-- Outcome of the signal handler: the events it performs, in order, and
the process exit status it terminates with via `sys.exit`. -/
structure SigOutcome where
  events : List SigEvent
  exitCode : Nat
deriving DecidableEq, Repr

/-- Model of `SignalHandler._handle_signal`: if a callback is set it is invoked
(once), otherwise a diagnostic is printed; either way the process exits
with status zero. A registered callback is a function object, hence
truthy; `None` is falsy. -/
def handle_signal (callback : Option (Unit → Unit)) : SigOutcome :=
  match callback with
  | some _ => ⟨[SigEvent.callbackInvoked], 0⟩
  | none => ⟨[SigEvent.diagnosticPrinted], 0⟩

end LogStats

namespace Stats1

open LogStats

/-- Model of `ConcreteLogParser.parse_log` of `1-stats.py`, over the character
list of the line: `re.fullmatch` of the pattern, returning the captured
groups. -/
def parse_logL (cs : List Char) : Option LogInfo := do
  let (ip, r1) ← parseIp cs
  let r2 ← expectLit ((" - [").data) r1
  let (dt, r3) ← parseDate r2
  let r4 ← expectLit (("] ").data) r3
  let r5 ← expectLit requestLit r4
  let (code, r6) ← parseStatus1 r5
  let r7 ← expectLit [(' ')] r6
  let size ← parseTail1 r7
  some ⟨String.mk ip, String.mk dt, code, size⟩

/-- Model of `ConcreteLogParser.parse_log` of `1-stats.py` on a string. -/
def parse_log (s : String) : Option LogInfo := parse_logL s.data

/-- The body of the `try` block in `1-stats.py`'s `start`, applied to an
already-stripped line: parse the line; on no match skip; parse the size
with `int`, a `ValueError` being caught by the surrounding handler
(skip); otherwise fold the record in, increment the line counter, and
report when the counter reaches a multiple of ten. Returns the new state
and whether `notify` fired. -/
def tryBlock (st : ParserState) (logStr : String) : ParserState × Bool :=
  match parse_log logStr with
  | none => (st, false)
  | some info =>
    match intOfDigits? info.file_size with
    | none => (st, false)
    | some n =>
      let st1 := LogStats.log st n info.status_code
      let st2 := { st1 with line_count := st1.line_count + 1 }
      (st2, st2.line_count % 10 == 0)

/-- One iteration of `1-stats.py`'s `start` loop on one raw line: strip
it, skip it when empty, otherwise run the `try` block. -/
def step (st : ParserState) (line : String) : ParserState × Bool :=
  let logStr := pyStrip line
  if logStr = ("") then (st, false) else tryBlock st logStr

/-- The `start` loop of `1-stats.py` from a given state: process every
line, collecting the lines printed by each `notify`, and invoke `notify`
once more after the stream is exhausted. -/
def runAux : ParserState → List String → ParserState × List (List String)
  | st, [] => (st, [notifyLines st])
  | st, l :: ls =>
    let p := step st l
    let q := runAux p.1 ls
    (q.1, (if p.2 then [notifyLines p.1] else []) ++ q.2)

/-- The reports fired inside the loop (before end of stream). -/
def intermediatesAux : ParserState → List String → List (List String)
  | _, [] => []
  | st, l :: ls =>
    let p := step st l
    (if p.2 then [notifyLines p.1] else []) ++ intermediatesAux p.1 ls

/-- Model of `ConcreteLogParser.start` of `1-stats.py` from the initial state. -/
def start (lines : List String) : ParserState × List (List String) :=
  runAux initState lines

end Stats1

namespace Stats0

open LogStats

/-- Model of `ConcreteLogParser.parse_log` of `0-stats.py`, over the character
list of the line: `re.match` (prefix match) of the pattern with an
unrestricted three-digit status code and a nonempty byte-size run; any
input after the matched prefix is ignored. -/
def parse_logL (cs : List Char) : Option LogInfo := do
  let (ip, r1) ← parseIp cs
  let r2 ← expectLit ((" - [").data) r1
  let (dt, r3) ← parseDate r2
  let r4 ← expectLit (("] ").data) r3
  let r5 ← expectLit requestLit r4
  let (code, r6) ← parseStatus0 r5
  let r7 ← expectLit [(' ')] r6
  let size ← parseTail0 r7
  some ⟨String.mk ip, String.mk dt, code, size⟩

/-- Model of `ConcreteLogParser.parse_log` of `0-stats.py` on a string. -/
def parse_log (s : String) : Option LogInfo := parse_logL s.data

/-- The body of the `try` block in `0-stats.py`'s `start`, applied to an
already-stripped line (same shape as the `1-stats.py` loop body, with
this file's pattern). -/
def tryBlock (st : ParserState) (logStr : String) : ParserState × Bool :=
  match parse_log logStr with
  | none => (st, false)
  | some info =>
    match intOfDigits? info.file_size with
    | none => (st, false)
    | some n =>
      let st1 := LogStats.log st n info.status_code
      let st2 := { st1 with line_count := st1.line_count + 1 }
      (st2, st2.line_count % 10 == 0)

/-- One iteration of `0-stats.py`'s `start` loop on one raw line. -/
def step (st : ParserState) (line : String) : ParserState × Bool :=
  let logStr := pyStrip line
  if logStr = ("") then (st, false) else tryBlock st logStr

/-- The `start` loop of `0-stats.py` from a given state: unlike
`1-stats.py`, nothing runs after the stream is exhausted — no final
`notify`. -/
def runAux : ParserState → List String → ParserState × List (List String)
  | st, [] => (st, [])
  | st, l :: ls =>
    let p := step st l
    let q := runAux p.1 ls
    (q.1, (if p.2 then [notifyLines p.1] else []) ++ q.2)

/-- Model of `ConcreteLogParser.start` of `0-stats.py` from the initial state. -/
def start (lines : List String) : ParserState × List (List String) :=
  runAux initState lines

end Stats0

open LogStats

theorem countOf_bump (m : List (String × Nat)) (k c : String) :
    countOf (bump m k) c = countOf m c + (if k = c then 1 else 0) := by
  induction m with
  | nil => by_cases h : k = c <;> simp [bump, countOf, h]
  | cons p rest ih =>
    obtain ⟨k', v⟩ := p
    by_cases h1 : k' = k
    · subst h1
      by_cases h2 : k' = c <;> simp [bump, countOf, h2]
    · by_cases h2 : k' = c
      · subst h2
        have hkk' : ¬ k = k' := fun h => h1 h.symm
        simp [bump, countOf, h1, hkk']
      · simp [bump, countOf, h1, h2, ih]

theorem foldRecs_nil (st : ParserState) : foldRecs st [] = st := rfl

theorem foldRecs_cons (st : ParserState) (r : Nat × String) (recs : List (Nat × String)) :
    foldRecs st (r :: recs) = foldRecs (log st r.1 r.2) recs := rfl

theorem foldRecs_files_size (recs : List (Nat × String)) :
    ∀ st : ParserState,
      (foldRecs st recs).files_size = st.files_size + (recs.map Prod.fst).sum := by
  induction recs with
  | nil => intro st; simp [foldRecs]
  | cons r recs ih =>
    intro st
    rw [foldRecs_cons, ih]
    simp [log]
    omega

theorem foldRecs_countOf (recs : List (Nat × String)) :
    ∀ (st : ParserState) (c : String),
      countOf (foldRecs st recs).status_code_count c
        = countOf st.status_code_count c + recs.countP (fun r => r.2 == c) := by
  induction recs with
  | nil => intro st c; simp [foldRecs]
  | cons r recs ih =>
    intro st c
    rw [foldRecs_cons, ih]
    simp [log, countOf_bump, List.countP_cons]
    by_cases h : r.2 = c <;> simp [h] <;> omega

/-- Claim C1: folding matched records through `ConcreteLogParser.log`
keeps the total byte size equal to the exact sum of the folded records'
byte sizes and each status-code count equal to the number of folded
records carrying that code, independently of fold order, and a fold step
never decreases the total or any count. -/
theorem c1_log_fold_invariant (init : ParserState) (recs : List (Nat × String)) :
    (foldRecs init recs).files_size = init.files_size + (recs.map Prod.fst).sum
  ∧ (∀ c, countOf (foldRecs init recs).status_code_count c
        = countOf init.status_code_count c + recs.countP (fun r => r.2 == c))
  ∧ (∀ recs', recs.Perm recs' →
        (foldRecs init recs').files_size = (foldRecs init recs).files_size
      ∧ ∀ c, countOf (foldRecs init recs').status_code_count c
           = countOf (foldRecs init recs).status_code_count c)
  ∧ (∀ (st : ParserState) (f : Nat) (c : String),
        st.files_size ≤ (log st f c).files_size
      ∧ ∀ k, countOf st.status_code_count k ≤ countOf (log st f c).status_code_count k) := by
  refine ⟨foldRecs_files_size recs init, fun c => foldRecs_countOf recs init c, ?_, ?_⟩
  · intro recs' hperm
    constructor
    · rw [foldRecs_files_size, foldRecs_files_size, (hperm.map Prod.fst).sum_eq]
    · intro c
      rw [foldRecs_countOf, foldRecs_countOf, hperm.countP_eq]
  · intro st f c
    constructor
    · simp [log]
    · intro k
      simp only [log, countOf_bump]
      split <;> omega

/-- Witness for C1 at a concrete record sequence and a concrete
permutation of it. -/
theorem c1_witness :
    (foldRecs initState [(100, ("200")), (50, ("404")), (100, ("200"))]).files_size
        = initState.files_size + 250
  ∧ countOf (foldRecs initState [(100, ("200")), (50, ("404")), (100, ("200"))]).status_code_count ("200")
        = countOf initState.status_code_count ("200") + 2
  ∧ (foldRecs initState [(50, ("404")), (100, ("200")), (100, ("200"))]).files_size
        = (foldRecs initState [(100, ("200")), (50, ("404")), (100, ("200"))]).files_size :=
  ⟨(c1_log_fold_invariant initState [(100, ("200")), (50, ("404")), (100, ("200"))]).1,
   (c1_log_fold_invariant initState [(100, ("200")), (50, ("404")), (100, ("200"))]).2.1 ("200"),
   ((c1_log_fold_invariant initState [(100, ("200")), (50, ("404")), (100, ("200"))]).2.2.1
      [(50, ("404")), (100, ("200")), (100, ("200"))] (by decide)).1⟩

theorem step1_skip (st : ParserState) (line : String)
    (h : Stats1.parse_log (pyStrip line) = none) : Stats1.step st line = (st, false) := by
  unfold Stats1.step
  by_cases he : pyStrip line = ("")
  · simp [he]
  · simp [he, Stats1.tryBlock, h]

theorem step0_skip (st : ParserState) (line : String)
    (h : Stats0.parse_log (pyStrip line) = none) : Stats0.step st line = (st, false) := by
  unfold Stats0.step
  by_cases he : pyStrip line = ("")
  · simp [he]
  · simp [he, Stats0.tryBlock, h]

/-- Claim C10: a skipped line — empty after stripping, no grammar match,
or a size-token parse failure — leaves the byte total, every status
count, and the line counter unchanged (the whole state is unchanged) and
triggers no report; likewise in the `0-stats.py` variant for its two
possible skip reasons. -/
theorem c10_skip_atomicity (st : ParserState) (line : String)
    (h : pyStrip line = ("") ∨ Stats1.parse_log (pyStrip line) = none
       ∨ ∃ info, Stats1.parse_log (pyStrip line) = some info
           ∧ intOfDigits? info.file_size = none) :
    Stats1.step st line = (st, false)
  ∧ ∀ (st' : ParserState) (l' : String),
      (pyStrip l' = ("") ∨ Stats0.parse_log (pyStrip l') = none) →
        Stats0.step st' l' = (st', false) := by
  constructor
  · rcases h with he | hn | ⟨info, hs, hi⟩
    · simp [Stats1.step, he]
    · exact step1_skip st line hn
    · unfold Stats1.step
      by_cases he : pyStrip line = ("")
      · simp [he]
      · simp [he, Stats1.tryBlock, hs, hi]
  · intro st' l' h'
    rcases h' with he | hn
    · simp [Stats0.step, he]
    · exact step0_skip st' l' hn

/-- Witness for C10 at a concrete non-matching line. -/
theorem c10_witness :
    Stats1.step initState ("hello") = (initState, false)
  ∧ Stats0.step initState ("hello") = (initState, false) :=
  ⟨(c10_skip_atomicity initState ("hello") (Or.inr (Or.inl (by decide)))).1,
   (c10_skip_atomicity initState ("hello") (Or.inr (Or.inl (by decide)))).2
     initState ("hello") (Or.inr (by decide))⟩

/-- Counterexample to C2: processing the non-matching line `"x"` leaves
the internal line counter unchanged at zero, while the claim predicts
the counter is incremented for every processed line regardless of the
match outcome. -/
theorem c2_counterexample :
    Stats1.step initState ("x") = (initState, false)
  ∧ initState.line_count = 0 := by
  constructor
  · decide
  · rfl

/-- Claim C2 (amended): the line counter is incremented once for every
line that matches the grammar and whose size token parses — not for
every processed line — and the intermediate report fires exactly when
the incremented counter is a multiple of ten; a line that does not reach
the fold leaves state and reporting untouched. -/
theorem c2_line_counter_amended (st : ParserState) (line : String) :
    match Stats1.parse_log (pyStrip line) with
    | some info =>
      match intOfDigits? info.file_size with
      | some _ =>
          (Stats1.step st line).1.line_count = st.line_count + 1
        ∧ ((Stats1.step st line).2 = true ↔ (st.line_count + 1) % 10 = 0)
      | none => Stats1.step st line = (st, false)
    | none => Stats1.step st line = (st, false) := by
  cases hp : Stats1.parse_log (pyStrip line) with
  | none =>
    simp only [hp]
    exact step1_skip st line hp
  | some info =>
    simp only [hp]
    have hne : pyStrip line ≠ ("") := by
      intro he
      rw [he] at hp
      have h0 : Stats1.parse_log ("") = none := by decide
      rw [h0] at hp
      exact Option.noConfusion hp
    cases hi : intOfDigits? info.file_size with
    | none =>
      simp only [hi]
      unfold Stats1.step
      simp [hne, Stats1.tryBlock, hp, hi]
    | some n =>
      simp only [hi]
      unfold Stats1.step
      simp only [if_neg hne, Stats1.tryBlock, hp, hi]
      constructor
      · simp [LogStats.log]
      · simp [LogStats.log]

/-- Counterexample to C4: the `0-stats.py` variant emits no report at
all on the empty stream (its `start` has no end-of-stream `notify`),
while the claim predicts exactly one final report on every stream. -/
theorem c4_counterexample : Stats0.start [] = (initState, []) := rfl

/-- Claim C4 (amended): in the `1-stats.py` variant a final report with
the same rendering as intermediate reports is produced exactly once when
the stream is exhausted — the report list is the intermediate reports
followed by exactly one final render of the final state — and on the
empty stream that sole report shows a zero total and no status lines;
the `0-stats.py` variant produces no end-of-stream report. -/
theorem c4_final_report_amended (st : ParserState) (lines : List String) :
    (Stats1.runAux st lines).2
      = Stats1.intermediatesAux st lines
          ++ [notifyLines (Stats1.runAux st lines).1]
  ∧ Stats1.start [] = (initState, [[("File Size: 0")]]) := by
  constructor
  · induction lines generalizing st with
    | nil => simp [Stats1.runAux, Stats1.intermediatesAux]
    | cons l ls ih => simp [Stats1.runAux, Stats1.intermediatesAux, ih]
  · decide

/-- Claim C7: a line that matches the grammar but whose byte-size token
fails integer parsing (as the empty token does) is skipped by the loop
body: the state is not folded into (not even with a zero size), no
report fires, and processing continues — the `ValueError` is caught. -/
theorem c7_size_parse_failure_skips (st : ParserState) (logStr : String)
    (info : LogInfo) (h1 : Stats1.parse_log logStr = some info)
    (h2 : intOfDigits? info.file_size = none) :
    Stats1.tryBlock st logStr = (st, false) := by
  simp [Stats1.tryBlock, h1, h2]

/-- Witness for C7: a grammar-matching line whose size token is empty. -/
theorem c7_witness :
    Stats1.parse_log
        ("10.0.0.1 - [2023-11-21 10:00:00] \"GET /projects/260 HTTP/1.1\" 200 ")
      = some ⟨("10.0.0.1"), ("2023-11-21 10:00:00"), ("200"), ("")⟩
  ∧ intOfDigits? ("") = none
  ∧ Stats1.tryBlock initState
        ("10.0.0.1 - [2023-11-21 10:00:00] \"GET /projects/260 HTTP/1.1\" 200 ")
      = (initState, false) :=
  ⟨by decide, by decide,
   c7_size_parse_failure_skips initState
     ("10.0.0.1 - [2023-11-21 10:00:00] \"GET /projects/260 HTTP/1.1\" 200 ")
     ⟨("10.0.0.1"), ("2023-11-21 10:00:00"), ("200"), ("")⟩ (by decide) (by decide)⟩

/-- Claim C8: on receipt of the registered signal, a registered callback
is invoked exactly once and the process exits with status zero; with no
callback registered, a diagnostic is printed and the process still exits
with status zero. -/
theorem c8_signal_handler :
    (∀ cb : Unit → Unit,
        handle_signal (some cb) = ⟨[SigEvent.callbackInvoked], 0⟩)
  ∧ handle_signal none = ⟨[SigEvent.diagnosticPrinted], 0⟩ :=
  ⟨fun _ => rfl, rfl⟩

/-- Counterexample to C9: a summary taken at the initial state reads an
empty status-count mapping, but after one further record is folded the
same summary's status-count entry reads the updated mapping — the
returned dictionary is the accumulator's own `defaultdict`, aliased, not
an immutable copy. -/
theorem c9_counterexample :
    derefCounts initState (get_summary initState) = ([] : List (String × Nat))
  ∧ derefCounts (log initState 100 ("200")) (get_summary initState)
      = [(("200"), 1)] :=
  ⟨rfl, rfl⟩

/-- Claim C9 (amended): `get_summary` returns the current totals and
does not mutate or reset the accumulator; the snapshot's total-bytes
entry is a value fixed at creation, but its status-count entry aliases
the accumulator's live dictionary, so reading it after further records
are folded yields the updated counts. -/
theorem c9_snapshot_aliasing_amended (st : ParserState) (recs : List (Nat × String)) :
    (get_summary st).files_size = st.files_size
  ∧ derefCounts st (get_summary st) = st.status_code_count
  ∧ derefCounts (foldRecs st recs) (get_summary st)
      = (foldRecs st recs).status_code_count :=
  ⟨rfl, rfl, rfl⟩

theorem parseStatus1_mem {cs : List Char} {code : String} {r : List Char}
    (h : parseStatus1 cs = some (code, r)) : code ∈ statusCodes := by
  rcases cs with _ | ⟨a, _ | ⟨b, _ | ⟨c, rest⟩⟩⟩
  · exact Option.noConfusion h
  · exact Option.noConfusion h
  · exact Option.noConfusion h
  · by_cases hm : String.mk [a, b, c] ∈ statusCodes
    · simp only [parseStatus1, if_pos hm, Option.some.injEq, Prod.mk.injEq] at h
      exact h.1 ▸ hm
    · simp only [parseStatus1, if_neg hm] at h
      exact Option.noConfusion h

theorem parse_logL1_inv {cs : List Char} {info : LogInfo}
    (h : Stats1.parse_logL cs = some info) :
    ∃ ip r1 r2 dt r3 r4 r5 code r6 r7 size,
      parseIp cs = some (ip, r1)
    ∧ expectLit ((" - [").data) r1 = some r2
    ∧ parseDate r2 = some (dt, r3)
    ∧ expectLit (("] ").data) r3 = some r4
    ∧ expectLit requestLit r4 = some r5
    ∧ parseStatus1 r5 = some (code, r6)
    ∧ expectLit [(' ')] r6 = some r7
    ∧ parseTail1 r7 = some size
    ∧ info = ⟨String.mk ip, String.mk dt, code, size⟩ := by
  simp only [Stats1.parse_logL, bind, Option.bind_eq_some] at h
  obtain ⟨⟨ip, r1⟩, h1, h⟩ := h
  obtain ⟨r2, h2, h⟩ := h
  obtain ⟨⟨dt, r3⟩, h3, h⟩ := h
  obtain ⟨r4, h4, h⟩ := h
  obtain ⟨r5, h5, h⟩ := h
  obtain ⟨⟨code, r6⟩, h6, h⟩ := h
  obtain ⟨r7, h7, h⟩ := h
  obtain ⟨size, h8, h⟩ := h
  exact ⟨ip, r1, r2, dt, r3, r4, r5, code, r6, r7, size,
    h1, h2, h3, h4, h5, h6, h7, h8, (Option.some.injEq _ _ ▸ h.symm)⟩

/-- Counterexample to C5: in the `0-stats.py` variant the status-code
group is three arbitrary digits, so the line with status token `999`
matches the grammar and is folded into the totals, while the claim
predicts NoMatch and no contribution. -/
theorem c5_counterexample :
    Stats0.parse_log
        ("10.0.0.1 - [2023-11-21 10:00:00] \"GET /projects/260 HTTP/1.1\" 999 100")
      = some ⟨("10.0.0.1"), ("2023-11-21 10:00:00"), ("999"), ("100")⟩
  ∧ Stats0.step initState
        ("10.0.0.1 - [2023-11-21 10:00:00] \"GET /projects/260 HTTP/1.1\" 999 100")
      = (⟨100, [(("999"), 1)], 1⟩, false) := by
  constructor
  · decide
  · decide

/-- Claim C5 (amended): in the `1-stats.py` variant every matched line
carries a status code from the fixed enumerated set — so a line with a
status token outside the set, such as `999`, is classified NoMatch — and
a NoMatch line contributes nothing: the step leaves the state unchanged
and fires no report. The `0-stats.py` variant instead accepts any
three-digit status token. -/
theorem c5_status_enumeration_amended :
    (∀ (line : String) (info : LogInfo),
        Stats1.parse_log line = some info → info.status_code ∈ statusCodes)
  ∧ (∀ (st : ParserState) (line : String),
        Stats1.parse_log (pyStrip line) = none → Stats1.step st line = (st, false)) := by
  constructor
  · intro line info h
    obtain ⟨ip, r1, r2, dt, r3, r4, r5, code, r6, r7, size,
      _, _, _, _, _, h6, _, _, hinfo⟩ := parse_logL1_inv h
    subst hinfo
    exact parseStatus1_mem h6
  · intro st line h
    exact step1_skip st line h

/-- Witness for C5: a matched line whose code is in the set, and a
NoMatch line (status token `999`) leaving the state unchanged. -/
theorem c5_witness :
    (("200") ∈ statusCodes)
  ∧ Stats1.step initState
        ("10.0.0.1 - [2023-11-21 10:00:00] \"GET /projects/260 HTTP/1.1\" 999 100")
      = (initState, false) :=
  ⟨c5_status_enumeration_amended.1
     ("10.0.0.1 - [2023-11-21 10:00:00] \"GET /projects/260 HTTP/1.1\" 200 100")
     ⟨("10.0.0.1"), ("2023-11-21 10:00:00"), ("200"), ("100")⟩ (by decide),
   c5_status_enumeration_amended.2 initState
     ("10.0.0.1 - [2023-11-21 10:00:00] \"GET /projects/260 HTTP/1.1\" 999 100")
     (by decide)⟩

theorem expectLit_append {lit cs r s : List Char}
    (h : expectLit lit cs = some r) : expectLit lit (cs ++ s) = some (r ++ s) := by
  induction lit generalizing cs with
  | nil =>
    simp only [expectLit, Option.some.injEq] at h
    subst h
    rfl
  | cons l ls ih =>
    cases cs with
    | nil => exact Option.noConfusion h
    | cons c cs' =>
      by_cases hc : c = l
      · simp only [List.cons_append, expectLit, if_pos hc] at h ⊢
        exact ih h
      · simp only [expectLit, if_neg hc] at h
        exact Option.noConfusion h

theorem expectLit_input_ne_nil {lit cs r : List Char}
    (hlit : lit ≠ []) (h : expectLit lit cs = some r) : cs ≠ [] := by
  intro he
  subst he
  cases lit with
  | nil => exact hlit rfl
  | cons l ls => exact Option.noConfusion h

theorem fixedDigits_append {n : Nat} {cs ds r s : List Char}
    (h : fixedDigits n cs = some (ds, r)) :
    fixedDigits n (cs ++ s) = some (ds, r ++ s) := by
  induction n generalizing cs ds with
  | zero =>
    simp only [fixedDigits, Option.some.injEq, Prod.mk.injEq] at h
    obtain ⟨h1, h2⟩ := h
    subst h1
    subst h2
    rfl
  | succ n ih =>
    cases cs with
    | nil => exact Option.noConfusion h
    | cons c cs' =>
      by_cases hd : isDig c
      · simp only [List.cons_append, fixedDigits, hd, if_true] at h ⊢
        cases hrec : fixedDigits n cs' with
        | none => rw [hrec] at h; exact Option.noConfusion h
        | some p =>
          obtain ⟨ds', r'⟩ := p
          rw [hrec] at h
          simp only [Option.some.injEq, Prod.mk.injEq] at h
          obtain ⟨hds, hr⟩ := h
          subst hds
          subst hr
          simp only [List.append_eq]
          rw [ih hrec]
      · simp only [fixedDigits, hd] at h
        exact Option.noConfusion h

theorem dropWhile_head_false {p : Char → Bool} :
    ∀ {l : List Char} {c : Char} {t : List Char},
      l.dropWhile p = c :: t → p c = false := by
  intro l
  induction l with
  | nil => intro c t h; exact List.noConfusion h
  | cons a l ih =>
    intro c t h
    rw [List.dropWhile_cons] at h
    by_cases ha : p a
    · rw [if_pos ha] at h
      exact ih h
    · rw [if_neg ha] at h
      cases h
      exact Bool.eq_false_iff.mpr ha

theorem takeWhile_all {p : Char → Bool} :
    ∀ l : List Char, (l.takeWhile p).all p = true := by
  intro l
  induction l with
  | nil => rfl
  | cons a l ih =>
    rw [List.takeWhile_cons]
    by_cases ha : p a
    · rw [if_pos ha]
      simp [ha, ih]
    · rw [if_neg ha]
      rfl

theorem tw_firm {p : Char → Bool} :
    ∀ {run : List Char} {c : Char} {t : List Char}, run.all p = true → p c = false →
      (run ++ c :: t).takeWhile p = run ∧ (run ++ c :: t).dropWhile p = c :: t := by
  intro run
  induction run with
  | nil =>
    intro c t _ hc
    constructor
    · simp [List.takeWhile_cons, hc]
    · simp [List.dropWhile_cons, hc]
  | cons a run ih =>
    intro c t hall hc
    rw [List.all_cons, Bool.and_eq_true] at hall
    obtain ⟨hpa, hrest⟩ := hall
    obtain ⟨ht, hd⟩ := ih hrest hc (c := c) (t := t)
    constructor
    · simp [List.takeWhile_cons, hpa, ht]
    · simp [List.dropWhile_cons, hpa, hd]

theorem seg13_append {cs ds r s : List Char}
    (h : seg13 cs = some (ds, r)) (hr : r ≠ []) :
    seg13 (cs ++ s) = some (ds, r ++ s) := by
  simp only [seg13] at h
  by_cases hcond : (cs.takeWhile isDig).length = 0 ∨ 4 ≤ (cs.takeWhile isDig).length
  · rw [if_pos hcond] at h
    exact Option.noConfusion h
  · rw [if_neg hcond] at h
    simp only [Option.some.injEq, Prod.mk.injEq] at h
    obtain ⟨hds, hdr⟩ := h
    obtain ⟨c, t, hct⟩ : ∃ c t, r = c :: t := by
      cases r with
      | nil => exact absurd rfl hr
      | cons c t => exact ⟨c, t, rfl⟩
    have hcfalse : isDig c = false := dropWhile_head_false (hdr.trans hct)
    have hall : (cs.takeWhile isDig).all isDig = true := takeWhile_all cs
    have hkey : cs ++ s = cs.takeWhile isDig ++ (c :: (t ++ s)) := by
      calc cs ++ s
          = (cs.takeWhile isDig ++ cs.dropWhile isDig) ++ s := by
            rw [List.takeWhile_append_dropWhile]
        _ = cs.takeWhile isDig ++ (cs.dropWhile isDig ++ s) := by
            rw [List.append_assoc]
        _ = cs.takeWhile isDig ++ (c :: (t ++ s)) := by
            rw [hdr, hct]
            rfl
    obtain ⟨htw, hdw⟩ := tw_firm hall hcfalse (t := t ++ s)
    simp only [seg13]
    rw [hkey, htw, hdw, if_neg hcond, hds, hct]
    rfl

theorem parseFrac_append {cs f r s : List Char}
    (h : parseFrac cs = some (f, r)) (hr : r ≠ []) :
    parseFrac (cs ++ s) = some (f, r ++ s) := by
  cases cs with
  | nil =>
    simp only [parseFrac, Option.some.injEq, Prod.mk.injEq] at h
    exact absurd h.2.symm hr
  | cons a cs' =>
    by_cases ha : a = ('.')
    · subst ha
      simp only [parseFrac, if_pos rfl, if_true] at h
      by_cases hlen : 13 ≤ (cs'.takeWhile isDig).length
      · rw [if_pos hlen] at h
        exact Option.noConfusion h
      · rw [if_neg hlen] at h
        simp only [Option.some.injEq, Prod.mk.injEq] at h
        obtain ⟨hf, hdr⟩ := h
        obtain ⟨c, t, hct⟩ : ∃ c t, r = c :: t := by
          cases r with
          | nil => exact absurd rfl hr
          | cons c t => exact ⟨c, t, rfl⟩
        have hcfalse : isDig c = false := dropWhile_head_false (hdr.trans hct)
        have hall : (cs'.takeWhile isDig).all isDig = true := takeWhile_all cs'
        have hkey : cs' ++ s = cs'.takeWhile isDig ++ (c :: (t ++ s)) := by
          calc cs' ++ s
              = (cs'.takeWhile isDig ++ cs'.dropWhile isDig) ++ s := by
                rw [List.takeWhile_append_dropWhile]
            _ = cs'.takeWhile isDig ++ (cs'.dropWhile isDig ++ s) := by
                rw [List.append_assoc]
            _ = cs'.takeWhile isDig ++ (c :: (t ++ s)) := by
                rw [hdr, hct]
                rfl
        obtain ⟨htw, hdw⟩ := tw_firm hall hcfalse (t := t ++ s)
        show parseFrac (('.') :: (cs' ++ s)) = some (f, r ++ s)
        simp only [parseFrac, if_pos rfl, if_true]
        rw [hkey, htw, hdw, if_neg hlen, ← hf, hct]
        rfl
    · simp only [parseFrac, if_neg ha, Option.some.injEq, Prod.mk.injEq] at h
      obtain ⟨hf, hdr⟩ := h
      show parseFrac (a :: (cs' ++ s)) = some (f, r ++ s)
      simp only [parseFrac, if_neg ha]
      rw [← hf, ← hdr]
      rfl

theorem parseStatus1_append {cs : List Char} {code : String} {r s : List Char}
    (h : parseStatus1 cs = some (code, r)) :
    parseStatus1 (cs ++ s) = some (code, r ++ s) := by
  rcases cs with _ | ⟨a, _ | ⟨b, _ | ⟨c, rest⟩⟩⟩
  · exact Option.noConfusion h
  · exact Option.noConfusion h
  · exact Option.noConfusion h
  · by_cases hm : String.mk [a, b, c] ∈ statusCodes
    · simp only [parseStatus1, if_pos hm, Option.some.injEq, Prod.mk.injEq] at h
      obtain ⟨hcode, hrr⟩ := h
      subst hcode
      subst hrr
      show parseStatus1 (a :: b :: c :: (rest ++ s)) = _
      simp only [parseStatus1, if_pos hm]
    · simp only [parseStatus1, if_neg hm] at h
      exact Option.noConfusion h

theorem parseIp_append {cs ip r s : List Char}
    (h : parseIp cs = some (ip, r)) (hr : r ≠ []) :
    parseIp (cs ++ s) = some (ip, r ++ s) := by
  simp only [parseIp, bind, Option.bind_eq_some] at h
  obtain ⟨⟨a, r1⟩, h1, h⟩ := h
  obtain ⟨r2, h2, h⟩ := h
  obtain ⟨⟨b, r3⟩, h3, h⟩ := h
  obtain ⟨r4, h4, h⟩ := h
  obtain ⟨⟨c, r5⟩, h5, h⟩ := h
  obtain ⟨r6, h6, h⟩ := h
  obtain ⟨⟨d, r7⟩, h7, h⟩ := h
  simp only [Option.some.injEq, Prod.mk.injEq] at h
  obtain ⟨hip, hrr⟩ := h
  subst hrr
  simp only [parseIp, bind, Option.bind_eq_some]
  refine ⟨⟨a, r1 ++ s⟩, seg13_append h1 (expectLit_input_ne_nil (by decide) h2), ?_⟩
  refine ⟨r2 ++ s, expectLit_append h2, ?_⟩
  refine ⟨⟨b, r3 ++ s⟩, seg13_append h3 (expectLit_input_ne_nil (by decide) h4), ?_⟩
  refine ⟨r4 ++ s, expectLit_append h4, ?_⟩
  refine ⟨⟨c, r5 ++ s⟩, seg13_append h5 (expectLit_input_ne_nil (by decide) h6), ?_⟩
  refine ⟨r6 ++ s, expectLit_append h6, ?_⟩
  refine ⟨⟨d, r7 ++ s⟩, seg13_append h7 hr, ?_⟩
  rw [← hip]

theorem parseDate_append {cs dt r s : List Char}
    (h : parseDate cs = some (dt, r)) (hr : r ≠ []) :
    parseDate (cs ++ s) = some (dt, r ++ s) := by
  simp only [parseDate, bind, Option.bind_eq_some] at h
  obtain ⟨⟨y, r1⟩, h1, h⟩ := h
  obtain ⟨r2, h2, h⟩ := h
  obtain ⟨⟨mo, r3⟩, h3, h⟩ := h
  obtain ⟨r4, h4, h⟩ := h
  obtain ⟨⟨d, r5⟩, h5, h⟩ := h
  obtain ⟨r6, h6, h⟩ := h
  obtain ⟨⟨hh, r7⟩, h7, h⟩ := h
  obtain ⟨r8, h8, h⟩ := h
  obtain ⟨⟨mi, r9⟩, h9, h⟩ := h
  obtain ⟨r10, h10, h⟩ := h
  obtain ⟨⟨ss, r11⟩, h11, h⟩ := h
  obtain ⟨⟨f, r12⟩, h12, h⟩ := h
  simp only [Option.some.injEq, Prod.mk.injEq] at h
  obtain ⟨hdt, hrr⟩ := h
  subst hrr
  simp only [parseDate, bind, Option.bind_eq_some]
  refine ⟨⟨y, r1 ++ s⟩, fixedDigits_append h1, ?_⟩
  refine ⟨r2 ++ s, expectLit_append h2, ?_⟩
  refine ⟨⟨mo, r3 ++ s⟩, fixedDigits_append h3, ?_⟩
  refine ⟨r4 ++ s, expectLit_append h4, ?_⟩
  refine ⟨⟨d, r5 ++ s⟩, fixedDigits_append h5, ?_⟩
  refine ⟨r6 ++ s, expectLit_append h6, ?_⟩
  refine ⟨⟨hh, r7 ++ s⟩, fixedDigits_append h7, ?_⟩
  refine ⟨r8 ++ s, expectLit_append h8, ?_⟩
  refine ⟨⟨mi, r9 ++ s⟩, fixedDigits_append h9, ?_⟩
  refine ⟨r10 ++ s, expectLit_append h10, ?_⟩
  refine ⟨⟨ss, r11 ++ s⟩, fixedDigits_append h11, ?_⟩
  refine ⟨⟨f, r12 ++ s⟩, parseFrac_append h12 hr, ?_⟩
  rw [← hdt]

theorem parseTail1_append_none {cs : List Char} {c : Char} {t : List Char}
    (hc : isDig c = false) : parseTail1 (cs ++ c :: t) = none := by
  have hfalse : (cs ++ c :: t).all isDig = false := by
    rw [List.all_append]
    simp [hc]
  simp [parseTail1, hfalse]

theorem parse_logL1_append {cs : List Char} {info : LogInfo} {c : Char} {t : List Char}
    (h : Stats1.parse_logL cs = some info) (hc : isDig c = false) :
    Stats1.parse_logL (cs ++ c :: t) = none := by
  obtain ⟨ip, r1, r2, dt, r3, r4, r5, code, r6, r7, size,
    h1, h2, h3, h4, h5, h6, h7, h8, _⟩ := parse_logL1_inv h
  cases hq : Stats1.parse_logL (cs ++ c :: t) with
  | none => rfl
  | some info2 =>
    exfalso
    obtain ⟨ip', r1', r2', dt', r3', r4', r5', code', r6', r7', size',
      g1, g2, g3, g4, g5, g6, g7, g8, _⟩ := parse_logL1_inv hq
    have H1 := parseIp_append (s := c :: t) h1 (expectLit_input_ne_nil (by decide) h2)
    rw [H1] at g1
    simp only [Option.some.injEq, Prod.mk.injEq] at g1
    obtain ⟨hip', hr1'⟩ := g1
    subst hr1'
    have H2 := expectLit_append (s := c :: t) h2
    rw [H2] at g2
    simp only [Option.some.injEq] at g2
    subst g2
    have H3 := parseDate_append (s := c :: t) h3 (expectLit_input_ne_nil (by decide) h4)
    rw [H3] at g3
    simp only [Option.some.injEq, Prod.mk.injEq] at g3
    obtain ⟨hdt', hr3'⟩ := g3
    subst hr3'
    have H4 := expectLit_append (s := c :: t) h4
    rw [H4] at g4
    simp only [Option.some.injEq] at g4
    subst g4
    have H5 := expectLit_append (s := c :: t) h5
    rw [H5] at g5
    simp only [Option.some.injEq] at g5
    subst g5
    have H6 := parseStatus1_append (s := c :: t) h6
    rw [H6] at g6
    simp only [Option.some.injEq, Prod.mk.injEq] at g6
    obtain ⟨hcode', hr6'⟩ := g6
    subst hr6'
    have H7 := expectLit_append (s := c :: t) h7
    rw [H7] at g7
    simp only [Option.some.injEq] at g7
    subst g7
    have H8 := @parseTail1_append_none r7 c t hc
    rw [H8] at g8
    exact Option.noConfusion g8

/-- Counterexample to C6: in the `0-stats.py` variant `parse_log` uses a
prefix match, so a well-formed record followed by extra trailing text is
still classified as a match and folded into the totals, while the claim
predicts NoMatch for every variant. -/
theorem c6_counterexample :
    Stats0.parse_log
        ("10.0.0.1 - [2023-11-21 10:00:00] \"GET /projects/260 HTTP/1.1\" 200 100 EXTRA")
      = some ⟨("10.0.0.1"), ("2023-11-21 10:00:00"), ("200"), ("100")⟩
  ∧ Stats0.step initState
        ("10.0.0.1 - [2023-11-21 10:00:00] \"GET /projects/260 HTTP/1.1\" 200 100 EXTRA")
      = (⟨100, [(("200"), 1)], 1⟩, false)
  ∧ Stats1.parse_log
        ("10.0.0.1 - [2023-11-21 10:00:00] \"GET /projects/260 HTTP/1.1\" 200 100 EXTRA")
      = none := by
  refine ⟨?_, ?_, ?_⟩
  · decide
  · decide
  · decide

/-- Claim C6 (amended): in the `1-stats.py` variant classification is a
full-line match: appending any nonempty trailing text that does not
begin with a digit to a matching line yields NoMatch, and a NoMatch line
is skipped without being fatal — the step leaves the state unchanged and
fires no report. The `0-stats.py` variant instead accepts a line whose
prefix matches, trailing text included. -/
theorem c6_full_line_match_amended (line : String) (info : LogInfo)
    (c : Char) (t : List Char)
    (h1 : Stats1.parse_log line = some info)
    (hc : isDig c = false) :
    Stats1.parse_logL (line.data ++ c :: t) = none
  ∧ ∀ (st : ParserState) (l : String),
      Stats1.parse_log (pyStrip l) = none → Stats1.step st l = (st, false) :=
  ⟨parse_logL1_append h1 hc, fun st l h => step1_skip st l h⟩

/-- Witness for C6: the standard well-formed line with `" EXTRA"`
appended is NoMatch in `1-stats.py`, and a NoMatch line leaves the state
unchanged. -/
theorem c6_witness :
    Stats1.parse_logL
        ((("10.0.0.1 - [2023-11-21 10:00:00] \"GET /projects/260 HTTP/1.1\" 200 100").data)
          ++ (' ') :: (("EXTRA").data)) = none
  ∧ Stats1.step initState
        ("10.0.0.1 - [2023-11-21 10:00:00] \"GET /projects/260 HTTP/1.1\" 200 100 EXTRA")
      = (initState, false) :=
  ⟨(c6_full_line_match_amended
      ("10.0.0.1 - [2023-11-21 10:00:00] \"GET /projects/260 HTTP/1.1\" 200 100")
      ⟨("10.0.0.1"), ("2023-11-21 10:00:00"), ("200"), ("100")⟩
      (' ') (("EXTRA").data) (by decide) (by decide)).1,
   (c6_full_line_match_amended
      ("10.0.0.1 - [2023-11-21 10:00:00] \"GET /projects/260 HTTP/1.1\" 200 100")
      ⟨("10.0.0.1"), ("2023-11-21 10:00:00"), ("200"), ("100")⟩
      (' ') (("EXTRA").data) (by decide) (by decide)).2 initState
      ("10.0.0.1 - [2023-11-21 10:00:00] \"GET /projects/260 HTTP/1.1\" 200 100 EXTRA")
      (by decide)⟩

theorem insertSorted_perm (p : String × Nat) :
    ∀ l : List (String × Nat), (insertSorted p l).Perm (p :: l) := by
  intro l
  induction l with
  | nil => exact List.Perm.refl _
  | cons q qs ih =>
    by_cases h : keyLe p q
    · simp [insertSorted, h]
    · simp only [insertSorted, if_neg h]
      exact List.Perm.trans (ih.cons q) (List.Perm.swap p q qs)

theorem sortItems_perm : ∀ m : List (String × Nat), (sortItems m).Perm m := by
  intro m
  induction m with
  | nil => exact List.Perm.refl _
  | cons p ps ih =>
    exact List.Perm.trans (insertSorted_perm p (sortItems ps)) (ih.cons p)

theorem charListLe_trans : ∀ {as bs cs : List Char},
    charListLe as bs = true → charListLe bs cs = true → charListLe as cs = true := by
  intro as
  induction as with
  | nil => intro bs cs _ _; rfl
  | cons a as ih =>
    intro bs cs h1 h2
    cases bs with
    | nil => exact absurd h1 (by simp [charListLe])
    | cons b bs =>
      cases cs with
      | nil => exact absurd h2 (by simp [charListLe])
      | cons c cs =>
        by_cases hab : a = b
        · subst hab
          by_cases hbc : a = c
          · subst hbc
            simp only [charListLe, if_pos rfl] at h1 h2 ⊢
            exact ih h1 h2
          · simp only [charListLe, if_pos rfl] at h1
            simp only [charListLe, if_neg hbc] at h2 ⊢
            exact h2
        · by_cases hbc : b = c
          · subst hbc
            simp only [charListLe, if_neg hab] at h1 ⊢
            exact h1
          · simp only [charListLe, if_neg hab] at h1
            simp only [charListLe, if_neg hbc] at h2
            rw [decide_eq_true_eq] at h1 h2
            have hac : a < c := lt_trans h1 h2
            have hne : a ≠ c := ne_of_lt hac
            simp only [charListLe, if_neg hne]
            exact decide_eq_true hac

theorem keyLe_trans {p q r : String × Nat}
    (h1 : keyLe p q = true) (h2 : keyLe q r = true) : keyLe p r = true :=
  charListLe_trans h1 h2

theorem keyLe_total (p q : String × Nat) : keyLe p q = true ∨ keyLe q p = true :=
  have h : ∀ as bs : List Char, charListLe as bs = true ∨ charListLe bs as = true := by
    intro as
    induction as with
    | nil => intro bs; left; rfl
    | cons a as ih =>
      intro bs
      cases bs with
      | nil => right; rfl
      | cons b bs =>
        by_cases hab : a = b
        · subst hab
          rcases ih bs with h | h
          · left; simp [charListLe, h]
          · right; simp [charListLe, h]
        · rcases lt_trichotomy a b with hlt | heq | hgt
          · left
            simp only [charListLe, if_neg hab]
            exact decide_eq_true hlt
          · exact absurd heq hab
          · right
            have hba : ¬ b = a := fun hbx => hab hbx.symm
            simp only [charListLe, if_neg hba]
            exact decide_eq_true hgt
  h p.1.data q.1.data

theorem pairwise_insertSorted (p : String × Nat) :
    ∀ {l : List (String × Nat)},
      l.Pairwise (fun x y => keyLe x y = true) →
      (insertSorted p l).Pairwise (fun x y => keyLe x y = true) := by
  intro l
  induction l with
  | nil =>
    intro _
    simp [insertSorted]
  | cons q qs ih =>
    intro hs
    rcases List.pairwise_cons.mp hs with ⟨hq, hqs⟩
    by_cases h : keyLe p q
    · simp only [insertSorted, if_pos h]
      refine List.pairwise_cons.mpr ⟨?_, hs⟩
      intro x hx
      rcases List.mem_cons.mp hx with hxq | hxqs
      · subst hxq; exact h
      · exact keyLe_trans h (hq x hxqs)
    · simp only [insertSorted, if_neg h]
      refine List.pairwise_cons.mpr ⟨?_, ih hqs⟩
      intro x hx
      have hx' : x ∈ p :: qs := (insertSorted_perm p qs).mem_iff.mp hx
      rcases List.mem_cons.mp hx' with hxp | hxqs
      · subst hxp
        rcases keyLe_total x q with h' | h'
        · exact absurd h' h
        · exact h'
      · exact hq x hxqs

theorem sortItems_sorted : ∀ m : List (String × Nat),
    (sortItems m).Pairwise (fun x y => keyLe x y = true) := by
  intro m
  induction m with
  | nil => simp [sortItems]
  | cons p ps ih => exact pairwise_insertSorted p ih

theorem countOf_eq_of_mem : ∀ {m : List (String × Nat)} {p : String × Nat},
    (m.map Prod.fst).Nodup → p ∈ m → countOf m p.1 = p.2 := by
  intro m
  induction m with
  | nil =>
    intro p _ hp
    exact absurd hp (List.not_mem_nil p)
  | cons q qs ih =>
    intro p hnd hp
    obtain ⟨qk, qv⟩ := q
    rw [List.map_cons, List.nodup_cons] at hnd
    obtain ⟨hq1, hq2⟩ := hnd
    rcases List.mem_cons.mp hp with hpq | hpqs
    · subst hpq
      simp [countOf]
    · have hne : qk ≠ p.1 := by
        intro he
        apply hq1
        rw [he]
        exact List.mem_map.mpr ⟨p, hpqs, rfl⟩
      simp only [countOf, if_neg hne]
      exact ih hq2 hpqs

theorem countOf_pos_iff_mem : ∀ {m : List (String × Nat)},
    (∀ p ∈ m, 0 < p.2) → ∀ c, (0 < countOf m c ↔ c ∈ m.map Prod.fst) := by
  intro m
  induction m with
  | nil =>
    intro _ c
    simp [countOf]
  | cons q qs ih =>
    intro hpos c
    obtain ⟨qk, qv⟩ := q
    by_cases hc : qk = c
    · subst hc
      simp only [countOf, if_pos rfl, List.map_cons]
      constructor
      · intro _
        exact List.mem_cons_self qk _
      · intro _
        exact hpos (qk, qv) (List.mem_cons_self _ _)
    · simp only [countOf, if_neg hc, List.map_cons]
      rw [ih (fun p hp => hpos p (List.mem_cons_of_mem _ hp)) c]
      constructor
      · intro hmem
        exact List.mem_cons_of_mem qk hmem
      · intro hmem
        rcases List.mem_cons.mp hmem with hq | hq
        · exact absurd hq.symm hc
        · exact hq

theorem statusCodes_key_lt :
    ∀ a ∈ statusCodes, ∀ b ∈ statusCodes,
      a ≠ b → charListLe a.data b.data = true → codeVal a < codeVal b := by
  decide

/-- Counterexample to C3: at the initial accumulator the rendered report
is the single line `File Size: 0` (capital `S`), not the line
`File size: 0` the claim prescribes as the first line. -/
theorem c3_counterexample :
    update initState (get_summary initState) = [("File Size: 0")] := by
  decide

/-- Claim C3 (amended): for every accumulator state with distinct,
positively-counted keys drawn from the enumerated code set, rendering a
report produces first the line `File Size: <totalBytes>` (the code
capitalises Size), then exactly one line `<code>: <count>` per status
code with a non-zero count, in ascending numeric order of status code,
and no line for a zero-count code. -/
theorem c3_report_rendering_amended (st : ParserState)
    (h1 : (st.status_code_count.map Prod.fst).Nodup)
    (h2 : ∀ p ∈ st.status_code_count, 0 < p.2)
    (h3 : ∀ p ∈ st.status_code_count, p.1 ∈ statusCodes) :
    update st (get_summary st)
      = (("File Size: ") ++ toString st.files_size)
          :: (sortItems st.status_code_count).map statusLine
  ∧ (sortItems st.status_code_count).Perm st.status_code_count
  ∧ (∀ p ∈ sortItems st.status_code_count,
        0 < p.2 ∧ countOf st.status_code_count p.1 = p.2)
  ∧ (∀ c, 0 < countOf st.status_code_count c
        ↔ c ∈ (sortItems st.status_code_count).map Prod.fst)
  ∧ (sortItems st.status_code_count).Pairwise
      (fun p q => codeVal p.1 < codeVal q.1) := by
  have hperm := sortItems_perm st.status_code_count
  refine ⟨rfl, hperm, ?_, ?_, ?_⟩
  · intro p hp
    have hp' : p ∈ st.status_code_count := hperm.mem_iff.mp hp
    exact ⟨h2 p hp', countOf_eq_of_mem h1 hp'⟩
  · intro c
    rw [countOf_pos_iff_mem h2 c]
    exact (hperm.map Prod.fst).mem_iff.symm
  · have hsorted := sortItems_sorted st.status_code_count
    have hnd : ((sortItems st.status_code_count).map Prod.fst).Nodup :=
      ((hperm.map Prod.fst).nodup_iff).mpr h1
    have hndp : (sortItems st.status_code_count).Pairwise
        (fun p q => p.1 ≠ q.1) := List.pairwise_map.mp hnd
    refine (hsorted.and hndp).imp_of_mem ?_
    intro p q hp hq hpq
    obtain ⟨hle, hne⟩ := hpq
    have hps : p.1 ∈ statusCodes := h3 p (hperm.mem_iff.mp hp)
    have hqs : q.1 ∈ statusCodes := h3 q (hperm.mem_iff.mp hq)
    exact statusCodes_key_lt p.1 hps q.1 hqs hne hle

/-- Witness for C3 at the accumulator state of the spec's 25-line
scenario (15 records of status 200 at 100 bytes, 10 of status 404 at 50
bytes, entries in dictionary insertion order 404 before 200). -/
theorem c3_witness :
    (((([(("404"), 10), (("200"), 15)] : List (String × Nat))).map Prod.fst).Nodup
      ∧ (∀ p ∈ ([(("404"), 10), (("200"), 15)] : List (String × Nat)), 0 < p.2)
      ∧ (∀ p ∈ ([(("404"), 10), (("200"), 15)] : List (String × Nat)),
            p.1 ∈ statusCodes))
  ∧ update ⟨2000, [(("404"), 10), (("200"), 15)], 25⟩
        (get_summary ⟨2000, [(("404"), 10), (("200"), 15)], 25⟩)
      = [("File Size: 2000"), ("200: 15"), ("404: 10")]
  ∧ (sortItems (ParserState.mk 2000 [(("404"), 10), (("200"), 15)] 25).status_code_count).Pairwise
      (fun p q => codeVal p.1 < codeVal q.1) :=
  ⟨⟨by decide, by decide, by decide⟩, by decide,
   (c3_report_rendering_amended ⟨2000, [(("404"), 10), (("200"), 15)], 25⟩
      (by decide) (by decide) (by decide)).2.2.2.2⟩
